import Mathlib

set_option autoImplicit false
set_option maxRecDepth 8000

/-
Verification of the bulk-append reconciliation core of the docarray
Elasticsearch storage backend (Offset Index + Append Reconciler), and of
the document content property mixin (docarray/document/mixins/property.py).

The reconciler itself is not shipped in src/ (only its unit tests are), so
its operations are modelled from the specification, as marked on each
definition below.  The property mixin is embedded from the source.
-/

universe u

/-- Modelled from the spec: a Pending Batch entry, an (id, payload) pair
submitted by the caller; the id is an opaque caller-assigned string and the
payload is opaque to the core (here a natural number, e.g. the value of a
constrained integer column). -/
structure Item where
  id : String
  payload : Nat
  deriving DecidableEq

/-- Modelled from the spec: the transport tuning parameters (concurrency,
batch size, byte ceiling, queue depth) accepted by the Bulk Transport
Client; they affect only how the transport chunks and parallelizes the
physical writes. -/
structure TransportParams where
  thread_count : Nat
  chunk_size : Nat
  max_chunk_bytes : Nat
  queue_size : Nat
  deriving DecidableEq

/-- Default transport behavior (no caller-supplied tuning). -/
def defaultParams : TransportParams := ⟨1, 500, 104857600, 4⟩

/-- Modelled from the spec: a Bulk Result Entry, the per-item outcome
returned by the transport - success (with the committed id) or failure
(with an item-level error), each entry identifiable by the id it
targeted. -/
inductive BulkResult where
  | success : String → BulkResult
  | failure : String → String → BulkResult
  deriving DecidableEq

/-- The id a Bulk Result Entry targets. -/
def BulkResult.rid : BulkResult → String
  | .success i => i
  | .failure i _ => i

/-- Modelled from the spec: the remote index's verdict on one item is
opaque to the core; a verdict function returns `none` for an acknowledged
write and `some cause` for an item-level rejection (wrong type, value
overflow, schema violation). -/
def mkResult (verdict : Item → Option String) (it : Item) : BulkResult :=
  match verdict it with
  | none => .success it.id
  | some e => .failure it.id e

/-- Fuel-indexed chunking of a list into slices of at most `n` elements
(all elements in one slice when the fuel runs out or `n = 0`). -/
def chunkFuel {α : Type u} (n : Nat) : Nat → List α → List (List α)
  | _, [] => []
  | 0, x :: xs => [x :: xs]
  | fuel + 1, x :: xs => (x :: xs).take n :: chunkFuel n fuel ((x :: xs).drop n)

/-- Modelled from the spec: `submitBulk` of the Bulk Transport Client
(an external collaborator, not under src/).  It chunks the operations by
`chunk_size` and performs the physical writes chunk by chunk, returning one
Bulk Result Entry per operation; the per-item verdicts come from the remote
index alone. -/
def submitBulk (verdict : Item → Option String) (ops : List Item)
    (params : TransportParams) : List BulkResult :=
  ((chunkFuel params.chunk_size ops.length ops).map
    (fun c => c.map (mkResult verdict))).flatten

/-- Modelled from the spec: the deduplication pass of the Append
Reconciler (not under src/).  An item is kept (novel) exactly when its id
is not present in the Offset Index; a kept id immediately counts as
present, so later occurrences of the same id within the batch are dropped
as duplicates of the now-just-inserted id. -/
def dedupe (idx : List String) : List Item → List Item
  | [] => []
  | it :: rest =>
    if it.id ∈ idx then dedupe idx rest
    else it :: dedupe (it.id :: idx) rest

/-- Modelled from the spec: result interpretation of the Append Reconciler
(not under src/).  Novel items are walked in their original relative
order; each item's Bulk Result Entry is correlated back by identifier, not
by position.  A success appends the id to the Offset Index; a failure is
recorded in the error report keyed by id. -/
def reconcile (idx : List String) (fails : List (String × String))
    (results : List BulkResult) : List Item → List String × List (String × String)
  | [] => (idx, fails)
  | it :: rest =>
    match results.find? (fun r => r.rid == it.id) with
    | some (.success _) => reconcile (idx ++ [it.id]) fails results rest
    | some (.failure _ cause) => reconcile idx (fails ++ [(it.id, cause)]) results rest
    | none => reconcile idx (fails ++ [(it.id, "missing bulk result")]) results rest

/-- Modelled from the spec: the `AppendOutcome` returned by `appendBatch`:
the final Offset Index contents, the failure report keyed by id, the
number of newly inserted items, and whether the batch-failure
condition is raised (it is raised exactly when the failure report is
non-empty, after all successful items are committed). -/
structure AppendOutcome where
  index : List String
  failures : List (String × String)
  insertedCount : Nat
  raised : Bool
  deriving DecidableEq

/-- Modelled from the spec: `appendBatch` of the Append Reconciler (not
under src/): deduplication pass, one logical bulk submission honoring the
transport parameters, then single-threaded result interpretation updating
the Offset Index. -/
def appendBatch (verdict : Item → Option String) (idx : List String)
    (items : List Item) (params : TransportParams) : AppendOutcome :=
  let novel := dedupe idx items
  let results := submitBulk verdict novel params
  let r := reconcile idx [] results novel
  { index := r.1
    failures := r.2
    insertedCount := r.1.length - idx.length
    raised := !r.2.isEmpty }

/-- Modelled from the spec: `idAt(offset)` of the Offset Index. -/
def idAt (idx : List String) (offset : Nat) : Option String := idx[offset]?

/-- Runs a sequence of `appendBatch` calls on an initially empty Offset
Index, keeping only the resulting index contents. -/
def applyBatches (verdict : Item → Option String)
    (batches : List (List Item × TransportParams)) : List String :=
  batches.foldl (fun idx b => (appendBatch verdict idx b.1 b.2).index) []

/-- One physical bulk submission observed at the transport boundary:
whether it is addressed to the Offset Index's internal record stream, and
the tuning parameters it was given (`none` = default transport
behavior). -/
structure SendCall where
  isOffsetStream : Bool
  kwargs : Option TransportParams
  deriving DecidableEq

/-- Modelled from the spec: the trace of transport submissions issued by
one `appendBatch` call - one bulk submission of the caller's document
writes honoring the caller's parameters, then the Offset Index's own
internal record-stream persistence of each committed entry, always with
default transport behavior. -/
def appendBatchSends (verdict : Item → Option String) (idx : List String)
    (items : List Item) (params : TransportParams) : List SendCall :=
  let o := appendBatch verdict idx items params
  ⟨false, some params⟩ :: (o.index.drop idx.length).map (fun _ => ⟨true, none⟩)

/-- A verdict under which the remote index acknowledges every write. -/
def acceptAll : Item → Option String := fun _ => none

/-- A verdict rejecting payloads that overflow a 32-bit integer column,
as the remote index does for a constrained `int` column. -/
def int32Verdict : Item → Option String := fun it =>
  if it.payload ≤ 2147483647 then none else some "mapper_parsing_exception"

/-- Scenario B, first batch: three valid items. -/
def batchB1 : List Item := [⟨"0", 1000⟩, ⟨"1", 20000⟩, ⟨"2", 103000⟩]

/-- Scenario B, second batch: two duplicates, three valid novel items and
two items whose payload overflows the int32 column. -/
def batchB2 : List Item :=
  [⟨"0", 10000⟩, ⟨"1", 20000⟩, ⟨"3", 30000⟩, ⟨"4", 100000000000⟩,
   ⟨"5", 2000⟩, ⟨"6", 100000000000⟩, ⟨"7", 30000⟩]

/-- Scenario A, first batch: five novel items. -/
def batchA1 : List Item :=
  [⟨"r0", 0⟩, ⟨"r1", 1⟩, ⟨"r2", 2⟩, ⟨"r3", 3⟩, ⟨"r4", 4⟩]

/-- Scenario A, second batch: three duplicates and two novel items. -/
def batchA2 : List Item :=
  [⟨"r0", 0⟩, ⟨"r2", 2⟩, ⟨"r4", 4⟩, ⟨"r5", 2⟩, ⟨"r6", 4⟩]

/-- Scenario C: one hundred novel items. -/
def batchC : List Item := (List.range 100).map (fun i => ⟨toString i, i⟩)

/-- Scenario C transport parameters. -/
def customParams : TransportParams := ⟨4, 100, 104857600, 4⟩

/-- The kinds of values a document's `content` can hold: a string (stored
in `text`), raw bytes (stored in `buffer`), or an ndarray-like value
(stored in `blob`), mirroring `DocumentContentType`. -/
inductive ContentValue where
  | str : String → ContentValue
  | bytes : List Nat → ContentValue
  | ndarray : List Int → ContentValue
  deriving DecidableEq

/-- The three content-bearing fields of a document's backing data, each
`none` when unset, as cleared by `PropertyMixin._clear_content`. -/
structure DocumentData where
  text : Option String
  blob : Option (List Int)
  buffer : Option (List Nat)
  deriving DecidableEq

/-- Modelled from the spec: `non_empty_fields` (provided by
`_PropertyMixin`, not under src/) lists the names of the document fields
whose stored value is set (not None). -/
def non_empty_fields (d : DocumentData) : List String :=
  (if d.text.isSome then ["text"] else []) ++
  (if d.blob.isSome then ["blob"] else []) ++
  (if d.buffer.isSome then ["buffer"] else [])

/-- Embeds `PropertyMixin.content_type`: 'text' if `text` is non-empty,
else 'blob' if `blob` is non-empty, else 'buffer' if `buffer` is
non-empty, else None. -/
def content_type (d : DocumentData) : Option String :=
  let nf := non_empty_fields d
  if "text" ∈ nf then some "text"
  else if "blob" ∈ nf then some "blob"
  else if "buffer" ∈ nf then some "buffer"
  else none

/-- Reading the document attribute named by `content_type` (the
`getattr(self, ct)` step of the `content` getter), injected into
`ContentValue`. -/
def getContentField (d : DocumentData) (name : String) : Option ContentValue :=
  if name = "text" then d.text.map ContentValue.str
  else if name = "blob" then d.blob.map ContentValue.ndarray
  else if name = "buffer" then d.buffer.map ContentValue.bytes
  else none

/-- Embeds the `PropertyMixin.content` getter: returns the field named by
`content_type`, or None when there is no content. -/
def content (d : DocumentData) : Option ContentValue :=
  match content_type d with
  | some ct => getContentField d ct
  | none => none

/-- Embeds `PropertyMixin._clear_content`: sets text, blob and buffer to
None. -/
def clear_content (d : DocumentData) : DocumentData :=
  { d with text := none, blob := none, buffer := none }

/-- Embeds the `PropertyMixin.content` setter: None clears all content
fields; bytes go to `buffer`; strings go to `text`; any other value goes
to `blob`. -/
def set_content (d : DocumentData) : Option ContentValue → DocumentData
  | none => clear_content d
  | some (.bytes b) => { d with buffer := some b }
  | some (.str s) => { d with text := some s }
  | some (.ndarray a) => { d with blob := some a }

/-! ### General lemmas about the embedded operations -/

theorem chunkFuel_flatten {α : Type u} (n : Nat) :
    ∀ (fuel : Nat) (l : List α), (chunkFuel n fuel l).flatten = l := by
  intro fuel
  induction fuel with
  | zero => intro l; cases l <;> simp [chunkFuel]
  | succ fuel ih =>
    intro l
    cases l with
    | nil => simp [chunkFuel]
    | cons x xs => simp [chunkFuel, ih, List.take_append_drop]

theorem submitBulk_eq_map (verdict : Item → Option String) (ops : List Item)
    (params : TransportParams) :
    submitBulk verdict ops params = ops.map (mkResult verdict) := by
  simp [submitBulk, ← List.map_flatten, chunkFuel_flatten]

theorem rid_mkResult (verdict : Item → Option String) (it : Item) :
    (mkResult verdict it).rid = it.id := by
  cases h : verdict it <;> simp [mkResult, h, BulkResult.rid]

theorem dedupe_id_not_mem :
    ∀ (items : List Item) (idx : List String) (it : Item),
      it ∈ dedupe idx items → it.id ∉ idx := by
  intro items
  induction items with
  | nil => intro idx it h; simp [dedupe] at h
  | cons hd rest ih =>
    intro idx it h
    by_cases hm : hd.id ∈ idx
    · rw [dedupe, if_pos hm] at h
      exact ih idx it h
    · rw [dedupe, if_neg hm] at h
      rcases List.mem_cons.mp h with h1 | h2
      · subst h1; exact hm
      · intro hc
        exact ih (hd.id :: idx) it h2 (List.mem_cons_of_mem _ hc)

theorem dedupe_ids_nodup :
    ∀ (items : List Item) (idx : List String), ((dedupe idx items).map Item.id).Nodup := by
  intro items
  induction items with
  | nil => intro idx; simp [dedupe]
  | cons hd rest ih =>
    intro idx
    by_cases hm : hd.id ∈ idx
    · rw [dedupe, if_pos hm]
      exact ih idx
    · rw [dedupe, if_neg hm]
      simp only [List.map_cons, List.nodup_cons]
      refine ⟨?_, ih (hd.id :: idx)⟩
      intro hmem
      rcases List.mem_map.mp hmem with ⟨it, hit, hid⟩
      exact dedupe_id_not_mem rest (hd.id :: idx) it hit (hid ▸ List.mem_cons_self _ _)

theorem dedupe_sublist :
    ∀ (items : List Item) (idx : List String), (dedupe idx items).Sublist items := by
  intro items
  induction items with
  | nil => intro idx; simp [dedupe]
  | cons hd rest ih =>
    intro idx
    by_cases hm : hd.id ∈ idx
    · rw [dedupe, if_pos hm]
      exact (ih idx).cons hd
    · rw [dedupe, if_neg hm]
      exact (ih (hd.id :: idx)).cons₂ hd

theorem dedupe_find_of_mem (items : List Item) (idx : List String) (iid : String)
    (h : iid ∈ idx) :
    (dedupe idx items).find? (fun it => it.id == iid) = none := by
  rw [List.find?_eq_none]
  intro it hit hbeq
  have hne := dedupe_id_not_mem items idx it hit
  exact hne (beq_iff_eq.mp hbeq ▸ h)

theorem dedupe_find_of_not_mem :
    ∀ (items : List Item) (idx : List String) (iid : String), iid ∉ idx →
      (dedupe idx items).find? (fun it => it.id == iid)
        = items.find? (fun it => it.id == iid) := by
  intro items
  induction items with
  | nil => intro idx iid _; simp [dedupe]
  | cons hd rest ih =>
    intro idx iid hni
    by_cases hm : hd.id ∈ idx
    · rw [dedupe, if_pos hm]
      have hne : (hd.id == iid) = false := by
        simp only [beq_eq_false_iff_ne, ne_eq]
        intro hc; exact hni (hc ▸ hm)
      rw [List.find?_cons_of_neg _ (by simp [hne]), ih idx iid hni]
    · rw [dedupe, if_neg hm]
      by_cases heq : hd.id = iid
      · rw [List.find?_cons_of_pos _ (by simp [heq]),
          List.find?_cons_of_pos _ (by simp [heq])]
      · rw [List.find?_cons_of_neg _ (by simp [heq]),
          List.find?_cons_of_neg _ (by simp [heq])]
        exact ih (hd.id :: idx) iid (by
          intro hc
          rcases List.mem_cons.mp hc with h1 | h2
          · exact heq h1.symm
          · exact hni h2)

theorem find?_map_mkResult (verdict : Item → Option String) :
    ∀ (novel : List Item), ((novel.map Item.id).Nodup) →
      ∀ it ∈ novel,
        (novel.map (mkResult verdict)).find? (fun r => r.rid == it.id)
          = some (mkResult verdict it) := by
  intro novel
  induction novel with
  | nil => intro _ it hit; simp at hit
  | cons hd rest ih =>
    intro hnd it hit
    simp only [List.map_cons, List.nodup_cons] at hnd
    rcases List.mem_cons.mp hit with h1 | h2
    · subst h1
      rw [List.map_cons, List.find?_cons_of_pos _ (by simp [rid_mkResult])]
    · have hne : ((mkResult verdict hd).rid == it.id) = false := by
        rw [rid_mkResult]
        simp only [beq_eq_false_iff_ne, ne_eq]
        intro hc
        exact hnd.1 (hc ▸ List.mem_map_of_mem Item.id h2)
      rw [List.map_cons, List.find?_cons_of_neg _ (by simp [hne]), ih hnd.2 it h2]

theorem find?_perm_mkResult (verdict : Item → Option String) (novel : List Item)
    (results : List BulkResult) (hnd : (novel.map Item.id).Nodup)
    (hp : results.Perm (novel.map (mkResult verdict))) :
    ∀ it ∈ novel,
      results.find? (fun r => r.rid == it.id) = some (mkResult verdict it) := by
  intro it hit
  have hmem : mkResult verdict it ∈ results :=
    hp.mem_iff.mpr (List.mem_map_of_mem _ hit)
  cases hfind : results.find? (fun r => r.rid == it.id) with
  | none =>
    exfalso
    exact List.find?_eq_none.mp hfind (mkResult verdict it) hmem
      (by simp [rid_mkResult])
  | some a =>
    have pa : a.rid = it.id := by
      have hp := List.find?_some hfind
      simpa using hp
    have ha : a ∈ novel.map (mkResult verdict) :=
      hp.subset (List.mem_of_find?_eq_some hfind)
    rcases List.mem_map.mp ha with ⟨it2, hit2, rfl⟩
    rw [rid_mkResult] at pa
    have : it2 = it := List.inj_on_of_nodup_map hnd hit2 hit pa
    rw [this]

theorem reconcile_spec (verdict : Item → Option String) (results : List BulkResult) :
    ∀ (novel : List Item) (idx : List String) (fails : List (String × String)),
      (∀ it ∈ novel,
        results.find? (fun r => r.rid == it.id) = some (mkResult verdict it)) →
      reconcile idx fails results novel =
        (idx ++ (novel.filter (fun it => (verdict it).isNone)).map Item.id,
         fails ++ novel.filterMap (fun it => (verdict it).map (fun e => (it.id, e)))) := by
  intro novel
  induction novel with
  | nil => intro idx fails _; simp [reconcile]
  | cons hd rest ih =>
    intro idx fails h
    have hfind := h hd (List.mem_cons_self _ _)
    have hrest : ∀ it ∈ rest,
        results.find? (fun r => r.rid == it.id) = some (mkResult verdict it) :=
      fun it hit => h it (List.mem_cons_of_mem _ hit)
    cases hv : verdict hd with
    | none =>
      have hres : mkResult verdict hd = .success hd.id := by simp [mkResult, hv]
      rw [reconcile, hfind, hres]
      rw [ih (idx ++ [hd.id]) fails hrest]
      simp [hv, List.filter_cons, List.filterMap_cons]
    | some e =>
      have hres : mkResult verdict hd = .failure hd.id e := by simp [mkResult, hv]
      rw [reconcile, hfind, hres]
      dsimp only
      rw [ih idx (fails ++ [(hd.id, e)]) hrest]
      simp [hv, List.filter_cons, List.filterMap_cons]

theorem appendBatch_index (verdict : Item → Option String) (idx : List String)
    (items : List Item) (params : TransportParams) :
    (appendBatch verdict idx items params).index
      = idx ++ ((dedupe idx items).filter (fun it => (verdict it).isNone)).map Item.id := by
  have hf : ∀ it ∈ dedupe idx items,
      (submitBulk verdict (dedupe idx items) params).find? (fun r => r.rid == it.id)
        = some (mkResult verdict it) := by
    rw [submitBulk_eq_map]
    exact find?_map_mkResult verdict _ (dedupe_ids_nodup items idx)
  simp only [appendBatch]
  rw [reconcile_spec verdict _ _ _ _ hf]

theorem appendBatch_failures (verdict : Item → Option String) (idx : List String)
    (items : List Item) (params : TransportParams) :
    (appendBatch verdict idx items params).failures
      = (dedupe idx items).filterMap (fun it => (verdict it).map (fun e => (it.id, e))) := by
  have hf : ∀ it ∈ dedupe idx items,
      (submitBulk verdict (dedupe idx items) params).find? (fun r => r.rid == it.id)
        = some (mkResult verdict it) := by
    rw [submitBulk_eq_map]
    exact find?_map_mkResult verdict _ (dedupe_ids_nodup items idx)
  simp only [appendBatch]
  rw [reconcile_spec verdict _ _ _ _ hf]
  simp

theorem appendBatch_raised (verdict : Item → Option String) (idx : List String)
    (items : List Item) (params : TransportParams) :
    (appendBatch verdict idx items params).raised
      = !(appendBatch verdict idx items params).failures.isEmpty := rfl

theorem mem_new_ids (verdict : Item → Option String) (idx : List String)
    (items : List Item) (a : String)
    (h : a ∈ ((dedupe idx items).filter (fun it => (verdict it).isNone)).map Item.id) :
    a ∉ idx := by
  rcases List.mem_map.mp h with ⟨it, hit, rfl⟩
  exact dedupe_id_not_mem items idx it (List.mem_filter.mp hit).1

theorem appendBatch_nodup (verdict : Item → Option String) (idx : List String)
    (items : List Item) (params : TransportParams) (h : idx.Nodup) :
    ((appendBatch verdict idx items params).index).Nodup := by
  rw [appendBatch_index]
  refine List.Nodup.append h ?_ ?_
  · exact ((dedupe_ids_nodup items idx).sublist
      ((List.filter_sublist _).map Item.id))
  · intro a ha hb
    exact mem_new_ids verdict idx items a hb ha

theorem foldl_appendBatch_nodup (verdict : Item → Option String) :
    ∀ (batches : List (List Item × TransportParams)) (idx : List String),
      idx.Nodup →
      (batches.foldl (fun i b => (appendBatch verdict i b.1 b.2).index) idx).Nodup := by
  intro batches
  induction batches with
  | nil => intro idx h; simpa using h
  | cons b rest ih =>
    intro idx h
    simp only [List.foldl_cons]
    exact ih _ (appendBatch_nodup verdict idx b.1 b.2 h)

theorem applyBatches_nodup (verdict : Item → Option String)
    (batches : List (List Item × TransportParams)) :
    (applyBatches verdict batches).Nodup :=
  foldl_appendBatch_nodup verdict batches [] List.nodup_nil

theorem failures_fst_sublist (verdict : Item → Option String) :
    ∀ (l : List Item),
      ((l.filterMap (fun it => (verdict it).map (fun e => (it.id, e)))).map Prod.fst).Sublist
        (l.map Item.id) := by
  intro l
  induction l with
  | nil => simp
  | cons hd rest ih =>
    cases hv : verdict hd with
    | none =>
      simp only [List.filterMap_cons, hv, Option.map_none', List.map_cons]
      exact ih.cons hd.id
    | some e =>
      simp only [List.filterMap_cons, hv, Option.map_some', List.map_cons]
      exact ih.cons₂ hd.id

/-! ### Claim theorems -/

/-- C1: per-item failure isolation of `appendBatch` - an item rejected by
the remote index is never added to the Offset Index, while every accepted
item of the same batch is committed; concretely, after appending ids
0,1,2 and submitting [0(dup), 1(dup), 3, 4(overflow), 5, 6(overflow), 7],
the final ordered id list is [0,1,2,3,5,7] and the count is 6. -/
theorem c1_item_failure_isolation :
    (∀ (verdict : Item → Option String) (idx : List String) (items : List Item)
        (params : TransportParams) (it : Item), it ∈ dedupe idx items →
        (((verdict it).isSome →
            it.id ∉ (appendBatch verdict idx items params).index) ∧
         (verdict it = none →
            it.id ∈ (appendBatch verdict idx items params).index))) ∧
    ((appendBatch int32Verdict [] batchB1 defaultParams).index = ["0", "1", "2"] ∧
     (appendBatch int32Verdict (appendBatch int32Verdict [] batchB1 defaultParams).index
         batchB2 defaultParams).index = ["0", "1", "2", "3", "5", "7"] ∧
     (appendBatch int32Verdict (appendBatch int32Verdict [] batchB1 defaultParams).index
         batchB2 defaultParams).index.length = 6) := by
  constructor
  · intro verdict idx items params it hit
    constructor
    · intro hs hmem
      rw [appendBatch_index] at hmem
      rcases List.mem_append.mp hmem with h1 | h2
      · exact dedupe_id_not_mem items idx it hit h1
      · rcases List.mem_map.mp h2 with ⟨it2, hit2, hid⟩
        rcases List.mem_filter.mp hit2 with ⟨hit2d, hv2⟩
        have heq : it2 = it :=
          List.inj_on_of_nodup_map (dedupe_ids_nodup items idx) hit2d hit hid
        subst heq
        rw [Option.isNone_iff_eq_none] at hv2
        rw [hv2] at hs
        simp at hs
    · intro hv
      rw [appendBatch_index]
      exact List.mem_append_right _ (List.mem_map_of_mem Item.id
        (List.mem_filter.mpr ⟨hit, by simp [hv]⟩))
  · exact ⟨by decide, by decide, by decide⟩

/-- Witness for C1: Scenario B's overflowing item with id 4 is absent from
the final Offset Index. -/
theorem c1_item_failure_isolation_witness :
    ("4" : String) ∉ (appendBatch int32Verdict ["0", "1", "2"] batchB2 defaultParams).index :=
  (c1_item_failure_isolation.1 int32Verdict ["0", "1", "2"] batchB2 defaultParams
    ⟨"4", 100000000000⟩ (by decide)).1 (by decide)

/-- C2: the batch-failure condition is raised exactly when some
novel item failed; it carries the full id-to-error mapping of every failed
id, and all successful novel items of the batch are committed to the
Offset Index (never rolled back). -/
theorem c2_batch_failure_condition :
    ∀ (verdict : Item → Option String) (idx : List String) (items : List Item)
      (params : TransportParams),
      ((appendBatch verdict idx items params).raised = true ↔
        (appendBatch verdict idx items params).failures ≠ []) ∧
      ((appendBatch verdict idx items params).raised = true ↔
        ∃ it ∈ dedupe idx items, (verdict it).isSome) ∧
      ((appendBatch verdict idx items params).failures
        = (dedupe idx items).filterMap (fun it => (verdict it).map (fun e => (it.id, e)))) ∧
      (∀ it ∈ dedupe idx items, verdict it = none →
        it.id ∈ (appendBatch verdict idx items params).index) := by
  intro verdict idx items params
  have hiff1 : (appendBatch verdict idx items params).raised = true ↔
      (appendBatch verdict idx items params).failures ≠ [] := by
    rw [appendBatch_raised]
    simp [List.isEmpty_iff]
  refine ⟨hiff1, ?_, appendBatch_failures verdict idx items params, ?_⟩
  · rw [hiff1, appendBatch_failures verdict idx items params, Ne,
      List.filterMap_eq_nil_iff]
    push_neg
    constructor
    · rintro ⟨it, hit, hne⟩
      refine ⟨it, hit, ?_⟩
      rw [Option.isSome_iff_ne_none]
      intro hn
      exact hne (by rw [hn]; rfl)
    · rintro ⟨it, hit, hs⟩
      refine ⟨it, hit, ?_⟩
      rcases Option.isSome_iff_exists.mp hs with ⟨e, he⟩
      rw [he]
      simp
  · intro it hit hv
    rw [appendBatch_index]
    exact List.mem_append_right _ (List.mem_map_of_mem Item.id
      (List.mem_filter.mpr ⟨hit, by simp [hv]⟩))

/-- Witness for C2: in Scenario B the successful novel item with id 3 is
committed to the Offset Index. -/
theorem c2_batch_failure_condition_witness :
    ("3" : String) ∈ (appendBatch int32Verdict ["0", "1", "2"] batchB2 defaultParams).index :=
  (c2_batch_failure_condition int32Verdict ["0", "1", "2"] batchB2 defaultParams).2.2.2
    ⟨"3", 30000⟩ (by decide) (by decide)

/-- C3: dedupe idempotence - an item whose id is already present in the
Offset Index is silently dropped: it never appears in the failure report
and does not change the number of occurrences of its id; concretely,
Scenario A yields insertedCount 5 with count 5, then insertedCount 2 with
count 7. -/
theorem c3_dedupe_idempotence :
    (∀ (verdict : Item → Option String) (idx : List String) (items : List Item)
        (params : TransportParams) (it : Item), it ∈ items → it.id ∈ idx →
        (it.id ∉ (appendBatch verdict idx items params).failures.map Prod.fst ∧
         (appendBatch verdict idx items params).index.count it.id = idx.count it.id)) ∧
    ((appendBatch acceptAll [] batchA1 defaultParams).insertedCount = 5 ∧
     (appendBatch acceptAll [] batchA1 defaultParams).index.length = 5 ∧
     (appendBatch acceptAll (appendBatch acceptAll [] batchA1 defaultParams).index
         batchA2 defaultParams).insertedCount = 2 ∧
     (appendBatch acceptAll (appendBatch acceptAll [] batchA1 defaultParams).index
         batchA2 defaultParams).index.length = 7) := by
  constructor
  · intro verdict idx items params it _ hid
    constructor
    · intro hmem
      rw [appendBatch_failures] at hmem
      have hsub := failures_fst_sublist verdict (dedupe idx items)
      have hm2 : it.id ∈ (dedupe idx items).map Item.id := hsub.subset hmem
      rcases List.mem_map.mp hm2 with ⟨it2, hit2, hid2⟩
      exact dedupe_id_not_mem items idx it2 hit2 (hid2 ▸ hid)
    · rw [appendBatch_index, List.count_append]
      have hz : (((dedupe idx items).filter
          (fun i => (verdict i).isNone)).map Item.id).count it.id = 0 := by
        rw [List.count_eq_zero]
        intro hmem
        exact mem_new_ids verdict idx items it.id hmem hid
      rw [hz]
      omega
  · exact ⟨by decide, by decide, by decide, by decide⟩

/-- Witness for C3: re-submitting Scenario A's duplicate id r0 leaves no
entry in the failure report. -/
theorem c3_dedupe_idempotence_witness :
    ("r0" : String) ∉ (appendBatch acceptAll ["r0", "r1", "r2", "r3", "r4"]
      batchA2 defaultParams).failures.map Prod.fst :=
  (c3_dedupe_idempotence.1 acceptAll ["r0", "r1", "r2", "r3", "r4"] batchA2
    defaultParams ⟨"r0", 0⟩ (by decide) (by decide)).1

/-- C4: Offset Index bijection invariant - after any sequence of
`appendBatch` calls the index holds no id twice, `idAt` is defined for
exactly the offsets below the count (no gaps), and `idAt` is injective on
distinct offsets. -/
theorem c4_offset_index_bijection :
    ∀ (verdict : Item → Option String)
      (batches : List (List Item × TransportParams)),
      (applyBatches verdict batches).Nodup ∧
      (∀ o : Nat, (idAt (applyBatches verdict batches) o).isSome ↔
        o < (applyBatches verdict batches).length) ∧
      (∀ o1 o2 : Nat, o1 < (applyBatches verdict batches).length →
        o2 < (applyBatches verdict batches).length → o1 ≠ o2 →
        idAt (applyBatches verdict batches) o1 ≠ idAt (applyBatches verdict batches) o2) := by
  intro verdict batches
  have hnd := applyBatches_nodup verdict batches
  refine ⟨hnd, ?_, ?_⟩
  · intro o
    constructor
    · intro h
      by_contra hge
      rw [idAt, List.getElem?_eq_none (Nat.le_of_not_lt hge)] at h
      simp at h
    · intro h
      rw [idAt, List.getElem?_eq_getElem h]
      rfl
  · intro o1 o2 h1 h2 hne heq
    rw [idAt, idAt, List.getElem?_eq_getElem h1, List.getElem?_eq_getElem h2] at heq
    exact hne ((List.Nodup.getElem_inj_iff hnd).mp (Option.some.inj heq))

/-- Witness for C4: two distinct offsets of a concrete two-element Offset
Index carry different ids. -/
theorem c4_offset_index_bijection_witness :
    idAt (applyBatches acceptAll [([⟨"a", 0⟩, ⟨"b", 1⟩], defaultParams)]) 0
      ≠ idAt (applyBatches acceptAll [([⟨"a", 0⟩, ⟨"b", 1⟩], defaultParams)]) 1 :=
  (c4_offset_index_bijection acceptAll [([⟨"a", 0⟩, ⟨"b", 1⟩], defaultParams)]).2.2
    0 1 (by decide) (by decide) (by decide)

/-- C5: transport-parameter transparency - two `appendBatch` runs on the
same initial state that differ only in the transport tuning parameters
produce the same outcome: identical final Offset Index contents and an
identical failure report. -/
theorem c5_transport_transparency :
    ∀ (verdict : Item → Option String) (idx : List String) (items : List Item)
      (p1 p2 : TransportParams),
      appendBatch verdict idx items p1 = appendBatch verdict idx items p2 := by
  intro verdict idx items p1 p2
  simp only [appendBatch, submitBulk_eq_map]

/-- C6: caller-supplied transport parameters are forwarded only to the bulk
submission of the caller's document writes; the Offset Index's own
record-stream persistence in the same call never receives them and uses
default transport behavior; concretely, one hundred novel items submitted
with the custom parameters are all committed with an empty failure
report. -/
theorem c6_params_only_for_document_writes :
    (∀ (verdict : Item → Option String) (idx : List String) (items : List Item)
        (params : TransportParams) (c : SendCall),
        c ∈ appendBatchSends verdict idx items params →
        (c.isOffsetStream = true → c.kwargs = none) ∧
        (c.isOffsetStream = false → c.kwargs = some params)) ∧
    ((appendBatch acceptAll [] batchC customParams).index.length = 100 ∧
     (appendBatch acceptAll [] batchC customParams).failures = []) := by
  constructor
  · intro verdict idx items params c hc
    simp only [appendBatchSends, List.mem_cons, List.mem_map] at hc
    rcases hc with h1 | ⟨a, _, h2⟩
    · subst h1
      exact ⟨fun h => by simp at h, fun _ => rfl⟩
    · rw [← h2]
      exact ⟨fun _ => rfl, fun h => by simp at h⟩
  · exact ⟨by decide, by decide⟩

/-- Witness for C6: the record-stream persistence call of a concrete
append receives no transport parameters. -/
theorem c6_params_only_for_document_writes_witness :
    (⟨true, none⟩ : SendCall).kwargs = none :=
  (c6_params_only_for_document_writes.1 acceptAll [] [⟨"a", 0⟩] customParams
    ⟨true, none⟩ (by decide)).1 (by decide)

/-- C7: order preservation under arbitrary result order - for any order in
which the transport delivers the per-item results (any permutation of the
canonical result list), the reconciler, correlating results by id, appends
the successful items in their original relative batch order and skips the
offsets of failed items. -/
theorem c7_order_preservation :
    ∀ (verdict : Item → Option String) (idx : List String) (novel : List Item)
      (results : List BulkResult) (params : TransportParams),
      (novel.map Item.id).Nodup →
      results.Perm (submitBulk verdict novel params) →
      (reconcile idx [] results novel).1
        = idx ++ (novel.filter (fun it => (verdict it).isNone)).map Item.id := by
  intro verdict idx novel results params hnd hp
  rw [submitBulk_eq_map] at hp
  rw [reconcile_spec verdict results novel idx []
    (find?_perm_mkResult verdict novel results hnd hp)]

/-- Witness for C7: results delivered in reverse order still append the
successful items a and c in batch order, skipping the failed item b. -/
theorem c7_order_preservation_witness :
    (reconcile ["z"] []
      [mkResult int32Verdict ⟨"c", 2⟩, mkResult int32Verdict ⟨"b", 9999999999⟩,
        mkResult int32Verdict ⟨"a", 1⟩]
      [⟨"a", 1⟩, ⟨"b", 9999999999⟩, ⟨"c", 2⟩]).1 = ["z", "a", "c"] :=
  (c7_order_preservation int32Verdict ["z"]
    [⟨"a", 1⟩, ⟨"b", 9999999999⟩, ⟨"c", 2⟩]
    [mkResult int32Verdict ⟨"c", 2⟩, mkResult int32Verdict ⟨"b", 9999999999⟩,
      mkResult int32Verdict ⟨"a", 1⟩]
    defaultParams (by decide) (by decide)).trans (by decide)

/-- C8: in-batch duplicate policy - the novel sublist keeps each id at most
once and in batch order; for an id not yet indexed the kept item is
exactly the first occurrence in the batch (later occurrences are dropped),
an id already indexed is never kept, the failure report names each id at
most once, and the concrete batch [a, b, a] submits only the first
occurrence of a. -/
theorem c8_in_batch_duplicates :
    (∀ (idx : List String) (items : List Item),
      ((dedupe idx items).map Item.id).Nodup ∧
      (dedupe idx items).Sublist items ∧
      (∀ iid : String, iid ∈ idx →
        (dedupe idx items).find? (fun it => it.id == iid) = none) ∧
      (∀ iid : String, iid ∉ idx →
        (dedupe idx items).find? (fun it => it.id == iid)
          = items.find? (fun it => it.id == iid)) ∧
      (∀ (verdict : Item → Option String) (params : TransportParams),
        ((appendBatch verdict idx items params).failures.map Prod.fst).Nodup)) ∧
    dedupe [] [⟨"a", 1⟩, ⟨"b", 2⟩, ⟨"a", 3⟩] = [⟨"a", 1⟩, ⟨"b", 2⟩] := by
  constructor
  · intro idx items
    refine ⟨dedupe_ids_nodup items idx, dedupe_sublist items idx,
      fun iid h => dedupe_find_of_mem items idx iid h,
      fun iid h => dedupe_find_of_not_mem items idx iid h,
      fun verdict params => ?_⟩
    rw [appendBatch_failures]
    exact (dedupe_ids_nodup items idx).sublist (failures_fst_sublist verdict _)
  · decide

/-- Witness for C8: in the concrete batch [a, b, a] the unique novel item
with id a is the first occurrence, payload included. -/
theorem c8_in_batch_duplicates_witness :
    (dedupe [] [⟨"a", 1⟩, ⟨"b", 2⟩, ⟨"a", 3⟩]).find? (fun it => it.id == "a")
      = [⟨"a", 1⟩, ⟨"b", 2⟩, ⟨"a", 3⟩].find? (fun it => it.id == "a") :=
  (c8_in_batch_duplicates.1 [] [⟨"a", 1⟩, ⟨"b", 2⟩, ⟨"a", 3⟩]).2.2.2.1 "a" (by decide)

/-- C9: content_type precedence - 'text' when the text field is non-empty,
else 'blob' when blob is non-empty, else 'buffer' when buffer is
non-empty, else None; consequently, when several content fields are
non-empty at once, `content` returns the text field's value. -/
theorem c9_content_type_precedence :
    ∀ d : DocumentData,
      content_type d = (if d.text.isSome then some "text"
        else if d.blob.isSome then some "blob"
        else if d.buffer.isSome then some "buffer" else none) ∧
      content d = (if d.text.isSome then d.text.map ContentValue.str
        else if d.blob.isSome then d.blob.map ContentValue.ndarray
        else d.buffer.map ContentValue.bytes) := by
  intro d
  obtain ⟨t, b, bf⟩ := d
  cases t <;> cases b <;> cases bf <;>
    simp [content_type, content, non_empty_fields, getContentField]

/-- C10: content round-trip - on a document whose text, blob and buffer
are all empty, setting `content` to a value stores it by runtime type (str
into text, bytes into buffer, any other value into blob) and a subsequent
read returns exactly that value; setting `content` to None clears all
three fields, after which content and content_type are both None. -/
theorem c10_content_roundtrip :
    ∀ d : DocumentData, d.text = none → d.blob = none → d.buffer = none →
      (∀ v : ContentValue, content (set_content d (some v)) = some v) ∧
      (∀ s : String, set_content d (some (.str s)) = { d with text := some s }) ∧
      (∀ b : List Nat, set_content d (some (.bytes b)) = { d with buffer := some b }) ∧
      (∀ a : List Int, set_content d (some (.ndarray a)) = { d with blob := some a }) ∧
      ((set_content d none).text = none ∧ (set_content d none).blob = none ∧
        (set_content d none).buffer = none) ∧
      content (set_content d none) = none ∧
      content_type (set_content d none) = none := by
  intro d h1 h2 h3
  have hd : d = ⟨none, none, none⟩ := by
    obtain ⟨t, b, bf⟩ := d
    simp_all
  subst hd
  refine ⟨?_, fun s => rfl, fun b => rfl, fun a => rfl, ⟨rfl, rfl, rfl⟩, rfl, rfl⟩
  intro v
  cases v <;> rfl

/-- Witness for C10: setting the content of an empty document to the
string hi and reading it back returns exactly that string. -/
theorem c10_content_roundtrip_witness :
    content (set_content ⟨none, none, none⟩ (some (.str "hi"))) = some (.str "hi") :=
  (c10_content_roundtrip ⟨none, none, none⟩ rfl rfl rfl).1 (.str "hi")
